import Mathlib

/-!
Verification development for the Library Synchronization Engine of the
script-lab repository (`src/client/app/effects/monaco.ts`, class
`MonacoEffects`).

The effects class is shallowly embedded as pure Lean functions:
* network transport (`this._request.get`) is a parameter
  `fetch : String → Option String` (`none` models a failed request);
* `storage.intellisenseCache` (a keyed store from a helpers module; spec
  contract: `contains`, `get`, `insert`) is a list of key/value pairs,
  insertion prepending so the newest binding wins;
* the `Dictionary<IDisposableFile>` `_current` is an insertion-ordered list;
  `Dictionary.add` fails when the key already exists, `remove` deletes by key;
* `monaco.languages.typescript.{javascript,typescript}Defaults.addExtraLib`
  is modelled by drawing a fresh numeric disposal handle and recording one
  register call against the selected target;
* RxJS observables are modelled by the per-event state transition they
  perform when they settle, together with the emissions they produce.

JavaScript string primitives (`trim`, `startsWith`, `split`, `toLowerCase`,
the regex tests) are given explicit structurally-recursive definitions over
`List Char` so that every function in this file evaluates by kernel
reduction; the source only applies them to ASCII reference strings.
-/

namespace ScriptLab

/-- Checks that the first character list is an initial segment of the
second; structural recursion so that it evaluates by kernel reduction. -/
def beginsWith : List Char → List Char → Bool
  | [], _ => true
  | _ :: _, [] => false
  | p :: ps, c :: cs => p == c && beginsWith ps cs

/-- JS `String.prototype.startsWith`. -/
def strStartsWith (s pat : String) : Bool :=
  beginsWith pat.data s.data

/-- JS `String.prototype.endsWith` (used for the anchored regex tests). -/
def strEndsWith (s pat : String) : Bool :=
  beginsWith pat.data.reverse s.data.reverse

/-- JS `String.prototype.toLowerCase` (ASCII range, as used by the `/i`
regex flags of the source). -/
def toLowerStr (s : String) : String :=
  String.mk (s.data.map Char.toLower)

/-- JS `String.prototype.trim` (whitespace as recognized by
`Char.isWhitespace`; the source only trims ASCII reference strings). -/
def jsTrim (s : String) : String :=
  String.mk (((s.data.dropWhile Char.isWhitespace).reverse.dropWhile
    Char.isWhitespace).reverse)

/-- Characters strictly before the next occurrence of `sep`. -/
def takeUntilSep (sep : List Char) : List Char → List Char
  | [] => []
  | c :: cs => if beginsWith sep (c :: cs) then [] else c :: takeUntilSep sep cs

/-- Characters after the first occurrence of `sep`, `none` if absent. -/
def afterSep (sep : List Char) : List Char → Option (List Char)
  | [] => none
  | c :: cs =>
    if beginsWith sep (c :: cs) then some (cs.drop (sep.length - 1))
    else afterSep sep cs

/-- Element `[1]` of JS `s.split(sep)` (the text between the first and the
second occurrence of `sep`), `""` when `sep` does not occur (JS would give
`undefined`; the source guards the call with a match on the separator). -/
def splitIndex1 (sep : List Char) (s : List Char) : List Char :=
  match afterSep sep s with
  | none => []
  | some rest => takeUntilSep sep rest

/-- `IIntellisenseFile` from monaco.ts. -/
structure IIntellisenseFile where
  url : String
  content : String
deriving Repr, DecidableEq

/-- `IDisposableFile` from monaco.ts; the `monaco.IDisposable` handle is
tracked by numeric identity. -/
structure IDisposableFile where
  url : String
  disposable : Nat
deriving Repr, DecidableEq

/-- Modelled from the spec: `storage.intellisenseCache` lives in a helpers
module that is not part of the provided sources; the spec's persistence-layer
contract supplies `contains(key) -> bool`, `get(key) -> content`,
`insert(key, content)` (insert replaces). -/
abbrev Cache := List (String × String)

def cacheContains (cache : Cache) (url : String) : Bool :=
  (cache.lookup url).isSome

def cacheGet (cache : Cache) (url : String) : String :=
  (cache.lookup url).getD ""

def cacheInsert (cache : Cache) (url content : String) : Cache :=
  (url, content) :: cache

/-- The `_current : Dictionary<IDisposableFile>` field, insertion ordered. -/
abbrev CurrentDict := List IDisposableFile

/-- `Dictionary.get` (used via `this._current.get(file)`). -/
def dictGet : CurrentDict → String → Option IDisposableFile
  | [], _ => none
  | f :: rest, url => if f.url == url then some f else dictGet rest url

/-- `Dictionary.add` from office-js-helpers: throws when the key already
exists (modelled as `none`), otherwise appends the entry. -/
def dictAdd (d : CurrentDict) (f : IDisposableFile) : Option CurrentDict :=
  if (dictGet d f.url).isSome then none else some (d ++ [f])

/-- The two registration targets of `_determineSource`:
`monaco.languages.typescript.javascriptDefaults` and
`monaco.languages.typescript.typescriptDefaults`. -/
inductive RegistrationTarget where
  | javascriptDefaults
  | typescriptDefaults
deriving Repr, DecidableEq

/-- `_determineSource(language)`: `switch` with a single `javascript` case and
a default falling through to the typescript target. -/
def _determineSource (language : String) : RegistrationTarget :=
  if language == "javascript" then RegistrationTarget.javascriptDefaults
  else RegistrationTarget.typescriptDefaults

/-- JS regex `/office.d.ts$/i` with its unescaped dots: eleven trailing
characters, positions 7 and 9 matching any character. -/
def officeDtsPattern : List (Option Char) :=
  [some 'o', some 'f', some 'f', some 'i', some 'c', some 'e', none,
   some 'd', none, some 't', some 's']

def matchesPattern : List (Option Char) → List Char → Bool
  | [], [] => true
  | some p :: ps, c :: cs => p == c && matchesPattern ps cs
  | none :: ps, _ :: cs => matchesPattern ps cs
  | _, _ => false

def matchesOfficeDts (s : String) : Bool :=
  let cs := (toLowerStr s).data
  decide (officeDtsPattern.length ≤ cs.length) &&
    matchesPattern officeDtsPattern (cs.drop (cs.length - officeDtsPattern.length))

/-- One element of `_parse`: trims the library string, then checks, in order,
the `/^@types/` shorthand, the `/^dt~/` registry shorthand, and the
`/\.d\.ts$/i` explicit-path form; anything else maps to `null` (`none`). -/
def parseLibrary (tabName library0 : String) : Option String :=
  let library := jsTrim library0
  if strStartsWith library "@types" then
    -- For custom functions, the stock Office.js library is excluded
    if tabName == "customFunctions" && strStartsWith library "@types/office-js" then
      none
    else
      some ("https://unpkg.com/" ++ library ++ "/index.d.ts")
  else if strStartsWith library "dt~" then
    let libName := String.mk (splitIndex1 ['d', 't', '~'] library.data)
    -- the source compares the full reference (which starts with "dt~") to
    -- "office-js" here
    if tabName == "customFunctions" && library == "office-js" then
      none
    else
      some ("https://raw.githubusercontent.com/DefinitelyTyped/DefinitelyTyped/master/types/"
        ++ libName ++ "/index.d.ts")
  else if strEndsWith (toLowerStr library) ".d.ts" then
    if tabName == "customFunctions" && matchesOfficeDts library then
      none
    else if strStartsWith (toLowerStr library) "http:"
        || strStartsWith (toLowerStr library) "https:" then
      some library
    else
      some ("https://unpkg.com/" ++ library)
  else
    none

/-- `_parse(libraries, tabName)`: element-wise resolution, `null`s kept. -/
def _parse (libraries : List String) (tabName : String) : List (Option String) :=
  libraries.map (parseLibrary tabName)

/-- The mutable state of a `MonacoEffects` instance: the `_current`
dictionary of active registrations, the intellisense content cache, and a
counter supplying fresh disposal-handle identities for `addExtraLib`. -/
structure SyncState where
  current : CurrentDict
  cache : Cache
  nextHandle : Nat
deriving Repr, DecidableEq

/-- Fresh effects instance: empty `_current`, empty cache. -/
def initialState : SyncState :=
  { current := [], cache := [], nextHandle := 0 }

/-- What `_addIntellisense`'s inner observable emits for one
`AddIntellisenseAction`: the stored `IDisposableFile` on success, or the
`UI.ReportErrorAction(Strings().intellisenseLoadError, exception)` produced
by its `catch`. -/
inductive InnerEmission where
  | added (file : IDisposableFile)
  | loadError (uiMessage : String)
deriving Repr, DecidableEq

/-- Actions dispatched to the store by the two effects. -/
inductive Action where
  | updateIntellisenseSuccess
  | reportError (uiMessage detail : String)
deriving Repr, DecidableEq

/-- `addIntellisense$` pipes every inner emission — success entry or caught
failure alike — through `.map(() => new UpdateIntellisenseSuccessAction())`. -/
def dispatchedOf : InnerEmission → Action :=
  fun _ => Action.updateIntellisenseSuccess

/-- `_get(url)`: cache hit returns the stored content with no network
access; otherwise one network request is performed and, on success, the
content is inserted into the cache before being returned; a failed request
propagates the error (`none`) and stores nothing.  Result: emitted file (or
`none` for an errored observable), cache afterwards, number of network
requests performed. -/
def _get (fetch : String → Option String) (url : String) (cache : Cache) :
    Option IIntellisenseFile × Cache × Nat :=
  if cacheContains cache url then
    (some { url := url, content := cacheGet cache url }, cache, 0)
  else
    match fetch url with
    | some content => (some { url := url, content := content },
        cacheInsert cache url content, 1)
    | none => (none, cache, 1)

/-- Tail of `_addIntellisense` once `_get` has produced a file: one
`source.addExtraLib(file.content, file.url)` call (a fresh disposal handle),
then `this._current.add(file.url, ...)`; when `add` throws because the key
already exists, the `catch` emits the load-error report and the new handle is
dropped on the floor. -/
def registerAndStore (language : String) (file : IIntellisenseFile)
    (st : SyncState) : SyncState × (RegistrationTarget × String) × InnerEmission :=
  let source := _determineSource language
  let handle := st.nextHandle
  match dictAdd st.current { url := file.url, disposable := handle } with
  | some current' =>
      ({ st with current := current', nextHandle := st.nextHandle + 1 },
       (source, file.url),
       InnerEmission.added { url := file.url, disposable := handle })
  | none =>
      ({ st with nextHandle := st.nextHandle + 1 },
       (source, file.url),
       InnerEmission.loadError "intellisenseLoadError")

/-- Result of handling one `AddIntellisenseAction`. -/
structure AddResult where
  state : SyncState
  fetches : Nat
  registerCalls : List (RegistrationTarget × String)
  emission : InnerEmission
deriving Repr, DecidableEq

/-- `_addIntellisense({url, language})`: awaits `MonacoService.current`,
runs `_get(url)`, then registers and stores the file; its `catch` converts a
failed fetch into a `ReportErrorAction(intellisenseLoadError, e)` emission. -/
def _addIntellisense (fetch : String → Option String) (language url : String)
    (st : SyncState) : AddResult :=
  match _get fetch url st.cache with
  | (none, cache', f) =>
      { state := { st with cache := cache' }, fetches := f,
        registerCalls := [],
        emission := InnerEmission.loadError "intellisenseLoadError" }
  | (some file, cache', f) =>
      let r := registerAndStore language file { st with cache := cache' }
      { state := r.1, fetches := f, registerCalls := [r.2.1],
        emission := r.2.2 }

/-- Accumulated result of the `AddIntellisenseAction`s of one pass. -/
structure AddsResult where
  state : SyncState
  fetches : Nat
  registerCalls : List (RegistrationTarget × String)
  emissions : List InnerEmission
deriving Repr, DecidableEq

/-- Sequential settlement of the batch of `AddIntellisenseAction`s emitted by
`updateIntellisense$`'s `mergeMap` (one action per element of `files`). -/
def runAdds (fetch : String → Option String) (language : String) :
    List String → SyncState → AddsResult
  | [], st => { state := st, fetches := 0, registerCalls := [], emissions := [] }
  | url :: rest, st =>
    let r := _addIntellisense fetch language url st
    let rs := runAdds fetch language rest r.state
    { state := rs.state, fetches := r.fetches + rs.fetches,
      registerCalls := r.registerCalls ++ rs.registerCalls,
      emissions := r.emission :: rs.emissions }

/-- Statistics of one reconciliation pass. -/
structure PassStats where
  fetches : Nat
  registerCalls : List (RegistrationTarget × String)
  disposedHandles : List Nat
  emissions : List InnerEmission
deriving Repr, DecidableEq

def emptyStats : PassStats :=
  { fetches := 0, registerCalls := [], disposedHandles := [], emissions := [] }

/-- The list the source computes at lines 54-62 of monaco.ts (`urls` with no
entry in `_current`) — computed there and then never used: the effect
returns `urlsToInclude`, not this list. -/
def urlsStillInNeedOfFetching (urlsToInclude : List String)
    (st : SyncState) : List String :=
  urlsToInclude.filter (fun u => (dictGet st.current u).isNone)

/-- One reconciliation pass over an already-computed `urlsToInclude` list
(lines 54-75 of monaco.ts plus the settlement of the resulting
`AddIntellisenseAction`s): every `_current` entry whose url is not desired
(JS `urlsToInclude.indexOf(file.url) < 0`) is disposed and removed, then one
`AddIntellisenseAction` is emitted per element of `urlsToInclude` (the
source returns the full list, not `urlsStillInNeedOfFetching`). -/
def reconcilePass (fetch : String → Option String) (language : String)
    (urlsToInclude : List String) (st : SyncState) : SyncState × PassStats :=
  let toDispose := st.current.filter (fun f => !(urlsToInclude.contains f.url))
  let st1 : SyncState :=
    { st with current := st.current.filter (fun f => urlsToInclude.contains f.url) }
  let rs := runAdds fetch language urlsToInclude st1
  (rs.state,
   { fetches := rs.fetches, registerCalls := rs.registerCalls,
     disposedHandles := toDispose.map (fun f => f.disposable),
     emissions := rs.emissions })

/-- The surface-specific implicit references appended by
`updateIntellisense$` before filtering; an unrecognized `tabName` throws
`Error('Invalid tab name')`.  `origin` stands for `location.origin` and
`versionedOfficeUrl` for
`getVersionedPackageUrl(location.origin, '@microsoft/office-js', 'office.d.ts')`
(a helpers function outside the provided sources). -/
def additionalLibraries (tabName origin versionedOfficeUrl : String) :
    Except String (List String) :=
  if tabName = "script" then
    Except.ok [origin ++ "/libs/auth-helpers.d.ts"]
  else if tabName = "customFunctions" then
    Except.ok [origin ++ "/libs/custom-functions.d.ts", versionedOfficeUrl]
  else
    Except.error "Invalid tab name"

/-- `urlsToInclude` of `updateIntellisense$`:
`_parse(libraries, tabName).concat(additionalLibraries)` filtered by
`url && url.trim() !== ''`. -/
def computeUrlsToInclude (libraries : List String)
    (tabName origin versionedOfficeUrl : String) : Except String (List String) :=
  (additionalLibraries tabName origin versionedOfficeUrl).map (fun addl =>
    ((_parse libraries tabName ++ addl.map some).filterMap id).filter
      (fun u => !(jsTrim u == "")))

/-- The whole `updateIntellisense$` handling of one
`UpdateIntellisenseAction`, through to settlement of the spawned
`AddIntellisenseAction`s: on an invalid tab name the `catch` dispatches
`ReportErrorAction(intellisenseUpdateError, e)` before any cache, dispose or
register work; otherwise the pass runs and each add settles to an
`UpdateIntellisenseSuccessAction`. -/
def updateIntellisenseEffect (fetch : String → Option String)
    (libraries : List String) (language tabName origin versionedOfficeUrl : String)
    (st : SyncState) : SyncState × PassStats × List Action :=
  match computeUrlsToInclude libraries tabName origin versionedOfficeUrl with
  | Except.error e => (st, emptyStats, [Action.reportError "intellisenseUpdateError" e])
  | Except.ok urls =>
      let r := reconcilePass fetch language urls st
      (r.1, r.2, r.2.emissions.map dispatchedOf)

/-- Progress of one in-flight `AddIntellisenseAction` handling.  `pending`:
the action's inner observable has not yet been subscribed (the `_get` cache
check has not run); `inFlight`: the cache missed and the network request has
been issued but has not settled; `completed`: the chain has settled. -/
inductive TaskPhase where
  | pending
  | inFlight
  | completed
deriving Repr, DecidableEq

structure ConcTask where
  url : String
  phase : TaskPhase
deriving Repr, DecidableEq

/-- State of several logically concurrent add chains over one shared
`MonacoEffects` instance (single-threaded event loop: each step runs to its
next suspension point atomically). -/
structure ConcState where
  tasks : List ConcTask
  state : SyncState
  fetches : Nat
  registerCalls : List (RegistrationTarget × String)
  emissions : List InnerEmission
deriving Repr, DecidableEq

/-- Advances task `i` to its next suspension point: a pending task runs
`_get`'s cache check — a hit completes the whole chain synchronously
(`Observable.of` emits at subscribe time), a miss issues the network request
and suspends; an in-flight task settles its request and, on success, inserts
into the cache and registers. -/
def stepTask (fetch : String → Option String) (language : String)
    (cs : ConcState) (i : Nat) : ConcState :=
  match cs.tasks[i]? with
  | none => cs
  | some t =>
    match t.phase with
    | TaskPhase.completed => cs
    | TaskPhase.pending =>
      if cacheContains cs.state.cache t.url then
        let r := registerAndStore language
          { url := t.url, content := cacheGet cs.state.cache t.url } cs.state
        { cs with tasks := cs.tasks.set i { t with phase := TaskPhase.completed },
                  state := r.1, registerCalls := cs.registerCalls ++ [r.2.1],
                  emissions := cs.emissions ++ [r.2.2] }
      else
        { cs with tasks := cs.tasks.set i { t with phase := TaskPhase.inFlight },
                  fetches := cs.fetches + 1 }
    | TaskPhase.inFlight =>
      match fetch t.url with
      | none =>
        { cs with tasks := cs.tasks.set i { t with phase := TaskPhase.completed },
                  emissions := cs.emissions ++
                    [InnerEmission.loadError "intellisenseLoadError"] }
      | some content =>
        let st1 := { cs.state with cache := cacheInsert cs.state.cache t.url content }
        let r := registerAndStore language { url := t.url, content := content } st1
        { cs with tasks := cs.tasks.set i { t with phase := TaskPhase.completed },
                  state := r.1, registerCalls := cs.registerCalls ++ [r.2.1],
                  emissions := cs.emissions ++ [r.2.2] }

/-- Runs an interleaving: the schedule names, in order, which task runs to
its next suspension point. -/
def runSchedule (fetch : String → Option String) (language : String)
    (schedule : List Nat) (cs : ConcState) : ConcState :=
  schedule.foldl (stepTask fetch language) cs

/-- Two add chains for the same locator `u`, neither yet started, over a
fresh effects instance. -/
def twoRequests (u : String) : ConcState :=
  { tasks := [{ url := u, phase := TaskPhase.pending },
              { url := u, phase := TaskPhase.pending }],
    state := initialState, fetches := 0, registerCalls := [], emissions := [] }

end ScriptLab

example : ScriptLab.parseLibrary "script" "dt~jquery" =
    some "https://raw.githubusercontent.com/DefinitelyTyped/DefinitelyTyped/master/types/jquery/index.d.ts" := by
  decide

example : ScriptLab.parseLibrary "customFunctions" "dt~office-js" =
    some "https://raw.githubusercontent.com/DefinitelyTyped/DefinitelyTyped/master/types/office-js/index.d.ts" := by
  decide

example : ScriptLab.parseLibrary "customFunctions" "@types/office-js" = none := by decide

example : ScriptLab.parseLibrary "script" " @types/jquery " =
    some "https://unpkg.com/@types/jquery/index.d.ts" := by decide

example : ScriptLab.parseLibrary "script" "foo/bar.d.ts" =
    some "https://unpkg.com/foo/bar.d.ts" := by decide

example : ScriptLab.parseLibrary "script" "HTTPS://x/y.D.TS" = some "HTTPS://x/y.D.TS" := by decide

example : ScriptLab.parseLibrary "customFunctions" "https://x/office.d.ts" = none := by decide

example : ScriptLab.parseLibrary "customFunctions" "https://x/myoffice.d.ts" = none := by decide

example : ScriptLab.parseLibrary "script" "lodash" = none := by decide

namespace ScriptLab

/-- Network oracle where every fetch succeeds. -/
def fetchOk : String → Option String := fun u => some ("content of " ++ u)

/-- Network oracle where exactly the fetch of `"u1"` fails. -/
def fetchFailU1 : String → Option String :=
  fun u => if u == "u1" then none else some ("content of " ++ u)

/-- C10: `_determineSource` is total over arbitrary language strings — the
language `javascript` selects the scripting-variant registration target and
every other string selects the statically-typed variant's target; no value
is rejected. -/
theorem c10_determineSource_total :
    _determineSource "javascript" = RegistrationTarget.javascriptDefaults
    ∧ ∀ language : String, language ≠ "javascript" →
        _determineSource language = RegistrationTarget.typescriptDefaults := by
  refine ⟨rfl, ?_⟩
  intro language h
  simp [_determineSource, h]

/-- Witness for `c10_determineSource_total` at the concrete non-javascript
language `typescript`. -/
theorem c10_witness :
    _determineSource "javascript" = RegistrationTarget.javascriptDefaults
    ∧ _determineSource "typescript" = RegistrationTarget.typescriptDefaults :=
  ⟨c10_determineSource_total.1, c10_determineSource_total.2 "typescript" (by decide)⟩

/-- C2 (failing input): for the customFunctions surface the reference
`dt~office-js` is NOT mapped to `null` — the exclusion guard compares the
whole reference (which always begins with `dt~` in this branch) against
`office-js`, so it never fires and the DefinitelyTyped path is returned,
contrary to the claim and to the comment in the source. -/
theorem c2_dt_office_js_not_excluded :
    parseLibrary "customFunctions" "dt~office-js" =
      some "https://raw.githubusercontent.com/DefinitelyTyped/DefinitelyTyped/master/types/office-js/index.d.ts"
    ∧ parseLibrary "script" "dt~jquery" =
      some "https://raw.githubusercontent.com/DefinitelyTyped/DefinitelyTyped/master/types/jquery/index.d.ts" := by
  exact ⟨by decide, by decide⟩

/-- C6: a reference whose trimmed form matches `/^@types/` resolves, for the
`script` surface, to the unpkg declaration-index URL, and for the
`customFunctions` surface it resolves to `null` exactly when it begins with
`@types/office-js`. -/
theorem c6_types_shorthand (library : String)
    (h : strStartsWith (jsTrim library) "@types" = true) :
    parseLibrary "script" library =
      some ("https://unpkg.com/" ++ jsTrim library ++ "/index.d.ts")
    ∧ (parseLibrary "customFunctions" library = none ↔
        strStartsWith (jsTrim library) "@types/office-js" = true) := by
  constructor
  · simp [parseLibrary, h]
  · by_cases h2 : strStartsWith (jsTrim library) "@types/office-js" = true
    · simp [parseLibrary, h, h2]
    · simp [parseLibrary, h, Bool.eq_false_iff.mpr h2]

/-- Witness for `c6_types_shorthand` at the references `@types/jquery`
(script surface) and `@types/office-js` (customFunctions surface). -/
theorem c6_witness :
    parseLibrary "script" "@types/jquery" =
      some ("https://unpkg.com/" ++ jsTrim "@types/jquery" ++ "/index.d.ts")
    ∧ parseLibrary "customFunctions" "@types/office-js" = none :=
  ⟨(c6_types_shorthand "@types/jquery" (by decide)).1,
   ((c6_types_shorthand "@types/office-js" (by decide)).2).mpr (by decide)⟩

/-- C7: an input event whose tab name is neither `script` nor
`customFunctions` is rejected as a single fatal error before any work: the
state (cache and registrations) is untouched, the pass statistics are all
zero and the only dispatched action is the
`ReportErrorAction(intellisenseUpdateError, Error('Invalid tab name'))`. -/
theorem c7_invalid_tab_rejected (fetch : String → Option String)
    (libraries : List String) (language tabName origin versionedOfficeUrl : String)
    (st : SyncState) (h1 : tabName ≠ "script") (h2 : tabName ≠ "customFunctions") :
    updateIntellisenseEffect fetch libraries language tabName origin
        versionedOfficeUrl st =
      (st, emptyStats,
        [Action.reportError "intellisenseUpdateError" "Invalid tab name"]) := by
  unfold updateIntellisenseEffect computeUrlsToInclude additionalLibraries
  simp [h1, h2, Except.map]

/-- Witness for `c7_invalid_tab_rejected` at the concrete tab name
`typescript` (neither recognized variant). -/
theorem c7_witness :
    updateIntellisenseEffect fetchOk ["dt~jquery"] "typescript" "typescript"
        "https://o" "v" initialState =
      (initialState, emptyStats,
        [Action.reportError "intellisenseUpdateError" "Invalid tab name"]) :=
  c7_invalid_tab_rejected fetchOk ["dt~jquery"] "typescript" "typescript"
    "https://o" "v" initialState (by decide) (by decide)

/-- C5: when `locator` is absent from the cache, `_get` performs exactly one
network request; on failure it propagates the error and leaves the cache
unchanged (no entry stored, so a later request fetches again), and on
success it stores the fetched content keyed by the locator before returning
it. -/
theorem c5_cache_not_poisoned (fetch : String → Option String) (url : String)
    (cache : Cache) (h : cacheContains cache url = false) :
    (fetch url = none → _get fetch url cache = (none, cache, 1))
    ∧ ∀ content, fetch url = some content →
        _get fetch url cache =
          (some { url := url, content := content }, cacheInsert cache url content, 1)
        ∧ cacheGet (cacheInsert cache url content) url = content := by
  refine ⟨fun hf => ?_, fun c hf => ⟨?_, ?_⟩⟩
  · simp [_get, h, hf]
  · simp [_get, h, hf]
  · simp [cacheGet, cacheInsert, List.lookup]

/-- Witness for `c5_cache_not_poisoned`: a fresh cache, a failing fetch of
`u` (propagated, nothing stored) and a succeeding one (stored before being
returned). -/
theorem c5_witness :
    (_get (fun _ => none) "u" [] = (none, [], 1))
    ∧ (_get (fun _ => some "c") "u" [] =
        (some { url := "u", content := "c" }, cacheInsert [] "u" "c", 1)
      ∧ cacheGet (cacheInsert [] "u" "c") "u" = "c") :=
  ⟨(c5_cache_not_poisoned (fun _ => none) "u" [] (by decide)).1 rfl,
   (c5_cache_not_poisoned (fun _ => some "c") "u" [] (by decide)).2 "c" rfl⟩

/-- C1 (failing input): reconciling the one-element desired set `["u"]` and
then, after it settles, reconciling the same set again — the second pass
performs zero network fetches and zero dispose calls, as claimed, but it
performs one register call (`addExtraLib`) rather than zero: the effect
returns `urlsToInclude` instead of the computed-but-unused
`urlsStillInNeedOfFetching`, so every already-registered url is re-sent
through `_addIntellisense`. -/
theorem c1_second_pass_reregisters :
    ((reconcilePass fetchOk "typescript" ["u"]
        (reconcilePass fetchOk "typescript" ["u"] initialState).1).2.fetches = 0)
    ∧ ((reconcilePass fetchOk "typescript" ["u"]
        (reconcilePass fetchOk "typescript" ["u"] initialState).1).2.disposedHandles = [])
    ∧ ((reconcilePass fetchOk "typescript" ["u"]
        (reconcilePass fetchOk "typescript" ["u"] initialState).1).2.registerCalls.length = 1)
    ∧ urlsStillInNeedOfFetching ["u"]
        (reconcilePass fetchOk "typescript" ["u"] initialState).1 = [] := by
  exact ⟨by decide, by decide, by decide, by decide⟩

/-- C4 (failing input): in the batch `u1..u5` with the fetch of `u1`
failing, the other four locators are all fetched and registered and `u1` is
left with no `_current` entry (isolation holds), and the failure produces a
caught per-locator load-error emission — but `addIntellisense$` maps every
inner emission to `UpdateIntellisenseSuccessAction`, so the dispatched
action for the failed locator is indistinguishable from a success. -/
theorem c4_isolation_holds_but_error_swallowed :
    ((reconcilePass fetchFailU1 "typescript" ["u1", "u2", "u3", "u4", "u5"]
        initialState).1.current.map IDisposableFile.url = ["u2", "u3", "u4", "u5"])
    ∧ ((reconcilePass fetchFailU1 "typescript" ["u1", "u2", "u3", "u4", "u5"]
        initialState).2.emissions =
      [InnerEmission.loadError "intellisenseLoadError",
       InnerEmission.added ⟨"u2", 0⟩, InnerEmission.added ⟨"u3", 1⟩,
       InnerEmission.added ⟨"u4", 2⟩, InnerEmission.added ⟨"u5", 3⟩])
    ∧ ((reconcilePass fetchFailU1 "typescript" ["u1", "u2", "u3", "u4", "u5"]
        initialState).2.emissions.map dispatchedOf =
      [Action.updateIntellisenseSuccess, Action.updateIntellisenseSuccess,
       Action.updateIntellisenseSuccess, Action.updateIntellisenseSuccess,
       Action.updateIntellisenseSuccess]) := by
  exact ⟨by decide, by decide, by decide⟩

/-! Infrastructure lemmas for the reconciliation theorems. -/

/-- Appending a fresh entry does not make a lookup of a different key
succeed. -/
theorem dictGet_append_none (d : CurrentDict) (f : IDisposableFile)
    (v : String) (hd : dictGet d v = none) (hne : v ≠ f.url) :
    dictGet (d ++ [f]) v = none := by
  induction d with
  | nil =>
    simp [dictGet, beq_eq_false_iff_ne.mpr (Ne.symm hne)]
  | cons g rest ih =>
    by_cases hg : g.url == v
    · simp [dictGet, hg] at hd
    · simp only [dictGet, hg, List.cons_append, Bool.false_eq_true, if_false] at hd ⊢
      exact ih hd

/-- When the fetch of `url` succeeds, `_get` emits a file for `url` no
matter what the cache holds. -/
theorem _get_success (fetch : String → Option String) (url : String)
    (cache : Cache) (h : (fetch url).isSome) :
    ∃ content cache' n,
      _get fetch url cache = (some { url := url, content := content }, cache', n) := by
  unfold _get
  by_cases hc : cacheContains cache url
  · exact ⟨cacheGet cache url, cache, 0, by simp [hc]⟩
  · obtain ⟨c, hc'⟩ := Option.isSome_iff_exists.mp h
    exact ⟨c, cacheInsert cache url c, 1,
      by simp [Bool.eq_false_iff.mpr hc, hc']⟩

/-- An `AddIntellisenseAction` for a url with a succeeding fetch and no
existing registration appends exactly one `_current` entry (with the fresh
handle) and performs exactly one register call. -/
theorem addIntellisense_fresh (fetch : String → Option String)
    (language url : String) (st : SyncState) (hf : (fetch url).isSome)
    (hu : dictGet st.current url = none) :
    (_addIntellisense fetch language url st).state.current
      = st.current ++ [{ url := url, disposable := st.nextHandle }]
    ∧ (_addIntellisense fetch language url st).registerCalls.length = 1 := by
  obtain ⟨content, cache', n, hg⟩ := _get_success fetch url st.cache hf
  unfold _addIntellisense
  rw [hg]
  unfold registerAndStore dictAdd
  simp [hu]

/-- Settling a batch of adds whose urls are pairwise distinct, all
fetchable and all unregistered appends exactly those urls to `_current`, in
order, with one register call each. -/
theorem runAdds_all_new (fetch : String → Option String) (language : String) :
    ∀ (files : List String) (st : SyncState), files.Nodup →
    (∀ u ∈ files, (fetch u).isSome) →
    (∀ u ∈ files, dictGet st.current u = none) →
    (runAdds fetch language files st).state.current.map IDisposableFile.url
      = st.current.map IDisposableFile.url ++ files
    ∧ (runAdds fetch language files st).registerCalls.length = files.length := by
  intro files
  induction files with
  | nil => intro st _ _ _; simp [runAdds]
  | cons u rest ih =>
    intro st hnd hf hn
    obtain ⟨hstep, hreg⟩ := addIntellisense_fresh fetch language u st
      (hf u (by simp)) (hn u (by simp))
    have hnotmem : u ∉ rest := (List.nodup_cons.mp hnd).1
    have hrest : ∀ v ∈ rest,
        dictGet (_addIntellisense fetch language u st).state.current v = none := by
      intro v hv
      rw [hstep]
      exact dictGet_append_none _ _ _ (hn v (List.mem_cons_of_mem _ hv))
        (show v ≠ u from fun hvu => hnotmem (hvu ▸ hv))
    obtain ⟨ih1, ih2⟩ := ih (_addIntellisense fetch language u st).state
      (List.nodup_cons.mp hnd).2 (fun v hv => hf v (List.mem_cons_of_mem _ hv)) hrest
    constructor
    · show (runAdds fetch language (u :: rest) st).state.current.map _ = _
      unfold runAdds
      rw [ih1, hstep]
      simp
    · show (runAdds fetch language (u :: rest) st).registerCalls.length = _
      unfold runAdds
      simp [hreg, ih2, Nat.add_comm]

/-- C3: for disjoint duplicate-free desired sets D1 then D2 with all fetches
succeeding, the first pass registers exactly D1; the second pass invokes the
disposal handles of exactly the D1 registrations (all of them, in order),
performs exactly one register call per element of D2, and leaves the active
registration keys equal to D2. -/
theorem c3_disjoint_passes (fetch : String → Option String) (language : String)
    (D1 D2 : List String) (h1 : D1.Nodup) (h2 : D2.Nodup)
    (hdisj : ∀ u ∈ D1, u ∉ D2)
    (hf : ∀ u, u ∈ D1 ∨ u ∈ D2 → (fetch u).isSome) :
    ((reconcilePass fetch language D1 initialState).1.current.map
        IDisposableFile.url = D1)
    ∧ ((reconcilePass fetch language D2
        (reconcilePass fetch language D1 initialState).1).2.disposedHandles
      = (reconcilePass fetch language D1 initialState).1.current.map
          IDisposableFile.disposable)
    ∧ ((reconcilePass fetch language D2
        (reconcilePass fetch language D1 initialState).1).2.disposedHandles.length
      = D1.length)
    ∧ ((reconcilePass fetch language D2
        (reconcilePass fetch language D1 initialState).1).2.registerCalls.length
      = D2.length)
    ∧ ((reconcilePass fetch language D2
        (reconcilePass fetch language D1 initialState).1).1.current.map
        IDisposableFile.url = D2) := by
  have pass1 : (reconcilePass fetch language D1 initialState).1.current.map
      IDisposableFile.url = D1 := by
    unfold reconcilePass
    have := (runAdds_all_new fetch language D1 initialState h1
      (fun u hu => hf u (Or.inl hu)) (fun u _ => rfl)).1
    simpa [initialState] using this
  set st1 := (reconcilePass fetch language D1 initialState).1 with hst1
  have hall : ∀ f ∈ st1.current, f.url ∉ D2 := fun f hfmem =>
    hdisj f.url (pass1 ▸ List.mem_map_of_mem IDisposableFile.url hfmem)
  have hdispose : st1.current.filter (fun f => !(D2.contains f.url)) = st1.current :=
    List.filter_eq_self.mpr (fun f hfmem => by simp [hall f hfmem])
  have hkeep : st1.current.filter (fun f => D2.contains f.url) = [] :=
    List.filter_eq_nil_iff.mpr (fun f hfmem => by simp [hall f hfmem])
  have pass2adds := runAdds_all_new fetch language D2
    { st1 with current := [] } h2 (fun u hu => hf u (Or.inr hu)) (fun u _ => rfl)
  refine ⟨pass1, ?_, ?_, ?_, ?_⟩
  · unfold reconcilePass
    rw [hdispose]
  · unfold reconcilePass
    have hlen : st1.current.length = D1.length := by
      have := congrArg List.length pass1
      simpa using this
    rw [hdispose]
    simpa using hlen
  · unfold reconcilePass
    rw [hkeep]
    simpa using pass2adds.2
  · unfold reconcilePass
    rw [hkeep]
    simpa using pass2adds.1

/-- Witness for `c3_disjoint_passes` at D1 = `[a, b]`, D2 = `[c]` with every
fetch succeeding. -/
theorem c3_witness :
    ((reconcilePass fetchOk "typescript" ["a", "b"] initialState).1.current.map
        IDisposableFile.url = ["a", "b"])
    ∧ ((reconcilePass fetchOk "typescript" ["c"]
        (reconcilePass fetchOk "typescript" ["a", "b"] initialState).1).2.disposedHandles
      = (reconcilePass fetchOk "typescript" ["a", "b"] initialState).1.current.map
          IDisposableFile.disposable)
    ∧ ((reconcilePass fetchOk "typescript" ["c"]
        (reconcilePass fetchOk "typescript" ["a", "b"] initialState).1).2.disposedHandles.length
      = (["a", "b"] : List String).length)
    ∧ ((reconcilePass fetchOk "typescript" ["c"]
        (reconcilePass fetchOk "typescript" ["a", "b"] initialState).1).2.registerCalls.length
      = (["c"] : List String).length)
    ∧ ((reconcilePass fetchOk "typescript" ["c"]
        (reconcilePass fetchOk "typescript" ["a", "b"] initialState).1).1.current.map
        IDisposableFile.url = ["c"]) :=
  c3_disjoint_passes fetchOk "typescript" ["a", "b"] ["c"] (by decide) (by decide)
    (by decide) (fun u _ => rfl)

/-- `_get` never removes or overwrites an existing cache entry. -/
theorem _get_preserves_cache (fetch : String → Option String) (url : String)
    (cache : Cache) (u content : String) (h : cache.lookup u = some content) :
    ((_get fetch url cache).2.1).lookup u = some content := by
  unfold _get
  by_cases hc : cacheContains cache url
  · simp [hc, h]
  · have hne : (u == url) = false := by
      refine beq_eq_false_iff_ne.mpr (fun huu => ?_)
      rw [huu] at h
      simp [cacheContains, h] at hc
    cases hf : fetch url with
    | none => simp [Bool.eq_false_iff.mpr hc, hf, h]
    | some c => simp [Bool.eq_false_iff.mpr hc, hf, cacheInsert, List.lookup, hne, h]

/-- `registerAndStore` does not touch the cache. -/
theorem registerAndStore_cache (language : String) (file : IIntellisenseFile)
    (st : SyncState) : (registerAndStore language file st).1.cache = st.cache := by
  unfold registerAndStore
  cases h : dictAdd st.current { url := file.url, disposable := st.nextHandle } <;> simp [h]

/-- One `AddIntellisenseAction` never removes or overwrites an existing cache
entry. -/
theorem addIntellisense_preserves_cache (fetch : String → Option String)
    (language url : String) (st : SyncState) (u content : String)
    (h : st.cache.lookup u = some content) :
    ((_addIntellisense fetch language url st).state.cache).lookup u = some content := by
  have hg := _get_preserves_cache fetch url st.cache u content h
  unfold _addIntellisense
  rcases he : _get fetch url st.cache with ⟨o, cache', n⟩
  rw [he] at hg
  cases o with
  | none => simpa using hg
  | some file =>
    simpa [registerAndStore_cache language file { st with cache := cache' }] using hg

/-- A whole batch of adds never removes or overwrites an existing cache
entry. -/
theorem runAdds_preserves_cache (fetch : String → Option String)
    (language : String) : ∀ (files : List String) (st : SyncState)
    (u content : String), st.cache.lookup u = some content →
    ((runAdds fetch language files st).state.cache).lookup u = some content := by
  intro files
  induction files with
  | nil => intro st u content h; simpa [runAdds] using h
  | cons v rest ih =>
    intro st u content h
    exact ih _ u content (addIntellisense_preserves_cache fetch language v st u content h)

/-- A reconciliation pass never removes or overwrites an existing cache
entry (disposal only touches `_current`). -/
theorem reconcilePass_preserves_cache (fetch : String → Option String)
    (language : String) (urls : List String) (st : SyncState)
    (u content : String) (h : st.cache.lookup u = some content) :
    ((reconcilePass fetch language urls st).1.cache).lookup u = some content := by
  unfold reconcilePass
  exact runAdds_preserves_cache fetch language urls _ u content h

/-- Cache hit: `_get` returns the stored content with no network request and
no cache change. -/
theorem _get_cached (fetch : String → Option String) (url content : String)
    (cache : Cache) (h : cache.lookup url = some content) :
    _get fetch url cache = (some { url := url, content := content }, cache, 0) := by
  simp [_get, cacheContains, cacheGet, h]

/-- C8: a locator already stored in the cache survives any intervening
reconciliation pass (with any desired set, any fetch outcomes), and a later
`_get` for it returns the stored content with zero network requests and the
cache unchanged. -/
theorem c8_cache_reuse (fetch : String → Option String) (language : String)
    (desired : List String) (st : SyncState) (url content : String)
    (h : st.cache.lookup url = some content) :
    ((reconcilePass fetch language desired st).1.cache).lookup url = some content
    ∧ _get fetch url (reconcilePass fetch language desired st).1.cache =
        (some { url := url, content := content },
         (reconcilePass fetch language desired st).1.cache, 0) := by
  have hp := reconcilePass_preserves_cache fetch language desired st url content h
  exact ⟨hp, _get_cached fetch url content _ hp⟩

/-- Witness for `c8_cache_reuse`: `u` was fetched earlier (so it is cached),
an intervening pass removes it and re-adds other urls, and the later `_get`
is a pure cache hit. -/
theorem c8_witness :
    ((reconcilePass fetchOk "typescript" ["v"]
        { current := [{ url := "u", disposable := 0 }], cache := [("u", "c")],
          nextHandle := 1 }).1.cache).lookup "u" = some "c"
    ∧ _get fetchOk "u" (reconcilePass fetchOk "typescript" ["v"]
        { current := [{ url := "u", disposable := 0 }], cache := [("u", "c")],
          nextHandle := 1 }).1.cache =
      (some { url := "u", content := "c" },
       (reconcilePass fetchOk "typescript" ["v"]
        { current := [{ url := "u", disposable := 0 }], cache := [("u", "c")],
          nextHandle := 1 }).1.cache, 0) :=
  c8_cache_reuse fetchOk "typescript" ["v"]
    { current := [{ url := "u", disposable := 0 }], cache := [("u", "c")],
      nextHandle := 1 } "u" "c" rfl

/-- C9 (counterexample): two add chains for the same new locator `u`
interleaved so that both run `_get`'s cache check before either network
request settles — the schedule `[0, 1, 0, 1]` — end with both chains
settled, yet the number of network calls made for `u` is not one. -/
theorem c9_counterexample :
    ((runSchedule (fun _ => some "c") "typescript" [0, 1, 0, 1]
        (twoRequests "u")).tasks.map ConcTask.phase
      = [TaskPhase.completed, TaskPhase.completed])
    ∧ ((runSchedule (fun _ => some "c") "typescript" [0, 1, 0, 1]
        (twoRequests "u")).fetches ≠ 1) := by
  exact ⟨by decide, by decide⟩

/-- C9 (amended): `_get` consults only the settled cache, so when the same
new locator is requested twice before the first fetch settles, one network
call is made per request (two in total, no in-flight collapse) and two
register calls are issued; once both chains settle, exactly one
`_current` registration for the locator exists — the second
`Dictionary.add` throws and its caught error is emitted in place of a
second entry. -/
theorem c9_no_inflight_collapse (fetch : String → Option String)
    (u content : String) (h : fetch u = some content) :
    (runSchedule fetch "typescript" [0, 1, 0, 1] (twoRequests u)).fetches = 2
    ∧ (runSchedule fetch "typescript" [0, 1, 0, 1] (twoRequests u)).tasks.map
        ConcTask.phase = [TaskPhase.completed, TaskPhase.completed]
    ∧ (runSchedule fetch "typescript" [0, 1, 0, 1] (twoRequests u)).state.current
        = [{ url := u, disposable := 0 }]
    ∧ (runSchedule fetch "typescript" [0, 1, 0, 1] (twoRequests u)).registerCalls
        = [(RegistrationTarget.typescriptDefaults, u),
           (RegistrationTarget.typescriptDefaults, u)]
    ∧ (runSchedule fetch "typescript" [0, 1, 0, 1] (twoRequests u)).emissions
        = [InnerEmission.added { url := u, disposable := 0 },
           InnerEmission.loadError "intellisenseLoadError"] := by
  simp [runSchedule, twoRequests, stepTask, registerAndStore, dictAdd, dictGet,
    cacheContains, cacheGet, cacheInsert, initialState, _determineSource, h,
    List.foldl, List.lookup]

/-- Witness for `c9_no_inflight_collapse` at the concrete locator `u` with
content `c`. -/
theorem c9_witness :
    (runSchedule (fun _ => some "c") "typescript" [0, 1, 0, 1]
        (twoRequests "u")).fetches = 2
    ∧ (runSchedule (fun _ => some "c") "typescript" [0, 1, 0, 1]
        (twoRequests "u")).tasks.map ConcTask.phase
        = [TaskPhase.completed, TaskPhase.completed]
    ∧ (runSchedule (fun _ => some "c") "typescript" [0, 1, 0, 1]
        (twoRequests "u")).state.current = [{ url := "u", disposable := 0 }]
    ∧ (runSchedule (fun _ => some "c") "typescript" [0, 1, 0, 1]
        (twoRequests "u")).registerCalls
        = [(RegistrationTarget.typescriptDefaults, "u"),
           (RegistrationTarget.typescriptDefaults, "u")]
    ∧ (runSchedule (fun _ => some "c") "typescript" [0, 1, 0, 1]
        (twoRequests "u")).emissions
        = [InnerEmission.added { url := "u", disposable := 0 },
           InnerEmission.loadError "intellisenseLoadError"] :=
  c9_no_inflight_collapse (fun _ => some "c") "u" "c" rfl

end ScriptLab

